import Mathlib

/-!
Verification of savedump's dependency-closure resolution and debug-artifact
matching logic, as implemented in `src/savedump/savedump.py` (current
implementation) and `src/savedump/prog.py` (the older near-duplicate).

The embedding is shallow: every external tool invocation is represented by a
`ToolRes` value (the tool may be missing, may exit non-zero, or may succeed
with a captured stdout string), the filesystem existence test `os.path.exists`
is a parameter `fs : Str → Bool`, and Python strings are lists of characters.
Python exceptions (`IndexError` from out-of-range indexing, `AssertionError`
from a failing `assert`, `OSError` from a failing copy) are modelled with an
explicit `PyExn` error channel, and `sys.exit` calls with an `ExitMsg` tag per
textual message in the source.
-/

abbrev Str : Type := List Char

/-- The ASCII apostrophe character (codepoint 39). -/
def quoteChar : Char := Char.ofNat 39

/-- Characters that Python's `str.split()` / `str.strip()` treat as
whitespace: space, tab, newline, carriage return, vertical tab, form feed. -/
def isWs (c : Char) : Bool :=
  c == ' ' || c == '\t' || c == '\n' || c == '\r' ||
    c == Char.ofNat 11 || c == Char.ofNat 12

/-- Embed a Lean string literal as a character list. -/
def strLit (s : String) : Str := s.data

/-- Boolean prefix test on character lists. -/
def isPrefixOfB : Str → Str → Bool
  | [], _ => true
  | _ :: _, [] => false
  | c :: n, d :: h => c == d && isPrefixOfB n h

/-- Python's substring containment test `needle in hay`. -/
def strIn (n : Str) : Str → Bool
  | [] => isPrefixOfB n []
  | c :: t => isPrefixOfB n (c :: t) || strIn n t

/-- Helper for `splitlines`: accumulates the current line in reverse. -/
def splitlinesGo (cur : Str) : Str → List Str
  | [] => [cur.reverse]
  | c :: rest =>
    if c == '\n' then
      match rest with
      | [] => [cur.reverse]
      | _ :: _ => cur.reverse :: splitlinesGo [] rest
    else splitlinesGo (c :: cur) rest

/-- Python's `str.splitlines()`, restricted to `\n` line boundaries (the only
boundary occurring in the tool outputs the program parses): no trailing empty
line is produced, and the empty string yields no lines. -/
def splitlines : Str → List Str
  | [] => []
  | c :: rest => splitlinesGo [] (c :: rest)

/-- Helper for `splitWs`: accumulates the current token in reverse. -/
def splitWsGo (cur : Str) : Str → List Str
  | [] => if cur.isEmpty then [] else [cur.reverse]
  | c :: rest =>
    if isWs c then
      if cur.isEmpty then splitWsGo [] rest
      else cur.reverse :: splitWsGo [] rest
    else splitWsGo (c :: cur) rest

/-- Python's no-argument `str.split()`: split on runs of whitespace,
discarding empty tokens. -/
def splitWs (s : Str) : List Str := splitWsGo [] s

/-- Python's `str.strip()`: remove leading and trailing whitespace. -/
def pyStrip (s : Str) : Str :=
  ((s.dropWhile isWs).reverse.dropWhile isWs).reverse

/-- Result of one external tool invocation through `shell_cmd`
(savedump.py lines 32-53): the program may be absent from the environment
(`shutil.which` fails), may exit non-zero, or may succeed with its stdout. -/
inductive ToolRes where
  | missing
  | failed (msg : Str)
  | ok (out : Str)
deriving DecidableEq

/-- Python exceptions that the modelled code can raise. -/
inductive PyExn where
  | indexError
  | assertionError
  | osError
deriving DecidableEq

/-- `DumpType` enum (savedump.py lines 92-97), in declaration order. -/
inductive DumpType where
  | CRASHDUMP
  | UCOREDUMP
deriving DecidableEq

/-- The marker substring of each `DumpType` member. -/
def dumpTypeValue : DumpType → Str
  | .CRASHDUMP => strLit "Kdump compressed dump"
  | .UCOREDUMP => strLit "core file"

/-- `get_dump_type` (savedump.py lines 100-112) applied to the output of the
`file` probe: the `for dump_type in DumpType` loop visits CRASHDUMP first,
then UCOREDUMP, returning the first member whose marker occurs in the
output. -/
def get_dump_type (output : Str) : Option DumpType :=
  if strIn (dumpTypeValue .CRASHDUMP) output then some .CRASHDUMP
  else if strIn (dumpTypeValue .UCOREDUMP) output then some .UCOREDUMP
  else none

/-- Header label of gdb's shared-library table (savedump.py line 342). -/
def sharedObjHeader : Str := strLit "Shared Object Library"

/-- `line.find(os.path.sep)` followed by `line[so_path_index:]` from
`get_libraries_through_gdb` (savedump.py lines 335-337); `os.path.sep` is `/`
on the Linux hosts the program targets. Returns the suffix of the line from
the first `/`, or `none` when the line holds no separator. -/
def extractGdbPath (line : Str) : Option Str :=
  let tail := line.dropWhile (fun c => !(c == '/'))
  if tail.isEmpty then none else some tail

/-- The line-scanning loop of `get_libraries_through_gdb` (savedump.py lines
331-344): before the header line containing `Shared Object Library` nothing is
recorded; afterwards each line's path suffix is appended when the path exists
on disk, and skipped with a warning otherwise. -/
def gdb_parse_lines (fs : Str → Bool) : List Str → Bool → List Str
  | [], _ => []
  | line :: rest, recording =>
    if recording then
      match extractGdbPath line with
      | some so_path =>
        if fs so_path then so_path :: gdb_parse_lines fs rest true
        else gdb_parse_lines fs rest true
      | none => gdb_parse_lines fs rest true
    else if strIn sharedObjHeader line then gdb_parse_lines fs rest true
    else gdb_parse_lines fs rest false

/-- `get_libraries_through_gdb` (savedump.py lines 290-344): `None` when the
gdb invocation fails (tool missing or non-zero exit), otherwise the parsed
library list. -/
def get_libraries_through_gdb (res : ToolRes) (fs : Str → Bool) :
    Option (List Str) :=
  match res with
  | .ok out => some (gdb_parse_lines fs (splitlines out) false)
  | _ => none

/-- The per-line extraction of `get_libraries_through_ldd` (savedump.py lines
376-389): an `=>` line contributes token index 2 of its whitespace split, a
`ld-linux-` line contributes token index 0; out-of-range indexing raises
`IndexError` exactly as Python's `line.split()[i]` would. -/
def ldd_parse_lines : List Str → Except PyExn (List Str)
  | [] => .ok []
  | line :: rest =>
    if strIn (strLit "=>") (pyStrip line) then
      match (splitWs (pyStrip line))[2]? with
      | none => .error .indexError
      | some tok =>
        match ldd_parse_lines rest with
        | .error e => .error e
        | .ok libs => .ok (tok :: libs)
    else if strIn (strLit "ld-linux-") (pyStrip line) then
      match (splitWs (pyStrip line))[0]? with
      | none => .error .indexError
      | some tok =>
        match ldd_parse_lines rest with
        | .error e => .error e
        | .ok libs => .ok (tok :: libs)
    else ldd_parse_lines rest

/-- `get_libraries_through_ldd` (savedump.py lines 347-389): `.ok none` when
the ldd invocation fails, otherwise the parsed list (or a propagated
`IndexError`). -/
def get_libraries_through_ldd (res : ToolRes) :
    Except PyExn (Option (List Str)) :=
  match res with
  | .ok out => (ldd_parse_lines (splitlines out)).map some
  | _ => .ok none

/-- The section-scanning loop of `binary_includes_debug_info` (savedump.py
lines 418-426): flags accumulate per line and the loop returns `True` as soon
as both `.debug_info` and `.debug_str` have been seen. -/
def bidi_loop : List Str → Bool → Bool → Bool
  | [], _, _ => false
  | line :: rest, seen_info, seen_str =>
    let di := seen_info || strIn (strLit ".debug_info") line
    let ds := seen_str || strIn (strLit ".debug_str") line
    if di && ds then true else bidi_loop rest di ds

/-- `binary_includes_debug_info` (savedump.py lines 392-426): `None` when the
`readelf -S` probe fails, otherwise the loop's verdict. -/
def binary_includes_debug_info (res : ToolRes) : Option Bool :=
  match res with
  | .ok out => some (bidi_loop (splitlines out) false false)
  | _ => none

/-- The marker substring of a build-id note line (savedump.py line 460). -/
def bidMarker : Str := strLit "Build ID:"

/-- The conventional debug-file path computed from a build id (savedump.py
line 462): `/usr/lib/debug/.build-id/<first-2>/<rest>.debug`. -/
def dbgPath (bid : Str) : Str :=
  strLit "/usr/lib/debug/.build-id/" ++ bid.take 2 ++ strLit "/" ++
    bid.drop 2 ++ strLit ".debug"

/-- The note-scanning loop of `get_debug_info_path` (savedump.py lines
458-466): the first line containing `Build ID:` is split on whitespace,
token index 2 is the build id (`IndexError` when absent, as in Python), the
computed path is returned when it exists, and otherwise the loop `break`s and
the function returns `None`. -/
def gdip_loop (fs : Str → Bool) : List Str → Except PyExn (Option Str)
  | [] => .ok none
  | line :: rest =>
    if strIn bidMarker line then
      match (splitWs line)[2]? with
      | none => .error .indexError
      | some bid =>
        if fs (dbgPath bid) then .ok (some (dbgPath bid)) else .ok none
    else gdip_loop fs rest

/-- `get_debug_info_path` (savedump.py lines 429-466): asserts the binary does
not embed its debug info (truthiness: only `Some true` trips the assert),
returns `None` when the `readelf -n` probe fails, and otherwise scans the
notes output. -/
def get_debug_info_path (sect notes : ToolRes) (fs : Str → Bool) :
    Except PyExn (Option Str) :=
  if binary_includes_debug_info sect = some true then .error .assertionError
  else
    match notes with
    | .ok out => gdip_loop fs (splitlines out)
    | _ => .ok none

/-- The literal prefix of the regex `execfn: '(.+?)',` (savedump.py line 479):
the label, colon, space, and opening quote — nine characters. -/
def execfnLabel : Str := strLit "execfn: " ++ [quoteChar]

/-- True when the string begins with a comma. -/
def headIsComma : Str → Bool
  | ',' :: _ => true
  | _ => false

/-- The lazy part of `(.+?)',`: having consumed `acc` (reversed), stop at the
earliest position where the closing `',` follows, consuming only non-newline
characters (`.` does not match a newline). -/
def execfnScanGo (acc : Str) : Str → Option Str
  | [] => none
  | c :: rest =>
    if c == quoteChar && headIsComma rest then some acc.reverse
    else if c == '\n' then none
    else execfnScanGo (c :: acc) rest

/-- Matching of `(.+?)',` at a fixed position: at least one non-newline
character must be consumed before the closing `',` is sought. -/
def execfnScan : Str → Option Str
  | [] => none
  | c :: rest => if c == '\n' then none else execfnScanGo [c] rest

/-- `re.search("execfn: '(.+?)',", output)` (savedump.py line 479): scan start
positions left to right; at the first position where the literal prefix and a
lazy completion both match, return the captured group. -/
def execfn_search : Str → Option Str
  | [] => none
  | c :: rest =>
    if isPrefixOfB execfnLabel (c :: rest) then
      match execfnScan ((c :: rest).drop 9) with
      | some g => some g
      | none => execfn_search rest
    else execfn_search rest

/-- `sys.exit` call sites of the modelled userland pipeline, one tag per
distinct message in the source. -/
inductive ExitMsg where
  | toolFailure (tool : Str)
  | binaryNotFoundNoPattern
  | binaryNotFoundMissing (p : Str)
  | depToolsUnavailable
  | compressFailed (msg : Str)
  | unknownCoreType
deriving DecidableEq

/-- Outcome of a run: a `sys.exit`, an uncaught Python exception, or a
successfully produced archive. -/
inductive UOutcome where
  | exited (e : ExitMsg)
  | raised (e : PyExn)
  | archived
deriving DecidableEq

/-- The deterministic external environment of one
`archive_userland_core_dump` run: the result of each tool invocation, the
filesystem existence test, and whether the staging copy steps succeed. -/
structure UserEnv where
  file_core : ToolRes
  fs : Str → Bool
  gdb : ToolRes
  ldd : ToolRes
  readelf_S : Str → ToolRes
  readelf_n : Str → ToolRes
  tar : ToolRes
  copy_ok : Bool

/-- `get_binary_path_from_userland_core` (savedump.py lines 469-482): the
embedded `get_dump_type` call exits when the `file` probe fails, the assert
checks the dump is a userland core, and the regex extracts the binary path.
The two `file` invocations in the source see the same deterministic result. -/
def get_binary_path_from_userland_core (env : UserEnv) :
    Except UOutcome (Option Str) :=
  match env.file_core with
  | .ok out =>
    if get_dump_type out = some .UCOREDUMP then .ok (execfn_search out)
    else .error (.raised .assertionError)
  | _ => .error (.exited (.toolFailure (strLit "file")))

/-- `compress_archive` (savedump.py lines 76-89): `None` on success, the
error message on failure (including the shell_cmd tool-missing message). -/
def compress_archive (tar : ToolRes) : Option Str :=
  match tar with
  | .ok _ => none
  | .missing => some (strLit "could not find program: tar")
  | .failed m => some m

/-- The staging/compress/cleanup tail shared by `archive_userland_core_dump`
(savedump.py lines 528-545) and `archive_kernel_dump` (lines 226-259): the
staging directory is created, the copy steps run (an `OSError` from
`shutil.copy` propagates with no cleanup), then compression runs and
`shutil.rmtree` removes the staging directory on both compression outcomes.
The second component records whether the staging directory still exists. -/
def archive_and_cleanup (copies_ok : Bool) (tar : ToolRes) : UOutcome × Bool :=
  if copies_ok then
    match compress_archive tar with
    | some m => (.exited (.compressFailed m), false)
    | none => (.archived, false)
  else (.raised .osError, true)

/-- The debug-info loop of `archive_userland_core_dump` (savedump.py lines
518-526): a dependency whose section probe shows embedded debug info is
skipped; otherwise `get_debug_info_path` is consulted, a missing result is a
logged warning, and a found path is collected. -/
def debug_loop (env : UserEnv) : List Str → Except PyExn (List Str)
  | [] => .ok []
  | dep :: rest =>
    if binary_includes_debug_info (env.readelf_S dep) = some true then
      debug_loop env rest
    else
      match get_debug_info_path (env.readelf_S dep) (env.readelf_n dep)
          env.fs with
      | .error e => .error e
      | .ok none => debug_loop env rest
      | .ok (some p) =>
        match debug_loop env rest with
        | .error e => .error e
        | .ok ps => .ok (p :: ps)

/-- The strategy chain of `archive_userland_core_dump` (savedump.py lines
508-512): gdb first; only when it returns `None` is ldd invoked; when ldd also
returns `None` the run exits. The second component records whether the ldd
fallback was attempted. -/
def resolve_libraries (env : UserEnv) : Except UOutcome (List Str) × Bool :=
  match get_libraries_through_gdb env.gdb env.fs with
  | some libs => (.ok libs, false)
  | none =>
    match get_libraries_through_ldd env.ldd with
    | .error e => (.error (.raised e), true)
    | .ok (some libs) => (.ok libs, true)
    | .ok none => (.error (.exited .depToolsUnavailable), true)

/-- `archive_userland_core_dump` (savedump.py lines 485-545): binary lookup,
library resolution, debug-info collection, then staging and compression.
The second component records whether the staging directory exists when the
run ends. -/
def archive_userland_core_dump (env : UserEnv) : UOutcome × Bool :=
  match get_binary_path_from_userland_core env with
  | .error o => (o, false)
  | .ok none => (.exited .binaryNotFoundNoPattern, false)
  | .ok (some bin_path) =>
    if bin_path.isEmpty then (.exited .binaryNotFoundNoPattern, false)
    else if !(env.fs bin_path) then
      (.exited (.binaryNotFoundMissing bin_path), false)
    else
      match resolve_libraries env with
      | (.error o, _) => (o, false)
      | (.ok libraries, _) =>
        match debug_loop env (bin_path :: libraries) with
        | .error e => (.raised e, false)
        | .ok _ => archive_and_cleanup env.copy_ok env.tar

/-- Environment of one whole `main` run: the userland environment plus the
(abstracted) outcome of the kernel-dump branch, which this development does
not need beyond its existence. -/
structure MainEnv where
  u : UserEnv
  kernel_branch : UOutcome × Bool

/-- `main` (savedump.py lines 558-570; named `savedump_main` here because Lean reserves `main` for an IO entry point): classify the dump via the `file`
probe, dispatch on the kind, and exit with `unknown core type` when neither
marker is present. -/
def savedump_main (env : MainEnv) : UOutcome × Bool :=
  match env.u.file_core with
  | .ok out =>
    match get_dump_type out with
    | some .CRASHDUMP => env.kernel_branch
    | some .UCOREDUMP => archive_userland_core_dump env.u
    | none => (.exited .unknownCoreType, false)
  | _ => (.exited (.toolFailure (strLit "file")), false)

/-- Association-list lookup mirroring Python's `dict.get` over the
name-to-srcversion map of `get_module_paths`. -/
def alookup (n : Str) : List (Str × Str) → Option Str
  | [] => none
  | (k, v) :: rest => if k = n then some v else alookup n rest

/-- Deletion mirroring Python's `del d[name]`: removes every pair with the
given key (the map built by the source has distinct keys). -/
def adelete (n : Str) (d : List (Str × Str)) : List (Str × Str) :=
  d.filter (fun e => !decide (e.1 = n))

/-- `os.path.basename`: the suffix after the last `/`. -/
def basename (p : Str) : Str :=
  (p.reverse.takeWhile (fun c => !(c == '/'))).reverse

/-- `os.path.basename(modpath)[:-3]` (savedump.py line 177): the candidate
file's module name, i.e. its basename with the trailing `.ko` dropped. -/
def modnameOf (p : Str) : Str :=
  (basename p).take ((basename p).length - 3)

/-- The candidate-scanning loop of `get_module_paths` (savedump.py lines
175-193): each candidate whose module name maps to a non-empty srcversion in
the pending map has `modinfo` consulted (a tool failure is a fatal
`sys.exit`, modelled as `.error`); on byte equality of the stripped output
with the recorded srcversion the path is appended and the name deleted from
the pending map. -/
def get_module_paths_go (minfo : Str → ToolRes) :
    List (Str × Str) → List Str → List Str →
      Except Str (List Str × List (Str × Str))
  | mods, acc, [] => .ok (acc, mods)
  | mods, acc, mp :: rest =>
    match alookup (modnameOf mp) mods with
    | none => get_module_paths_go minfo mods acc rest
    | some v =>
      if v.isEmpty then get_module_paths_go minfo mods acc rest
      else
        match minfo mp with
        | .missing => .error (strLit "could not find program: modinfo")
        | .failed m => .error m
        | .ok out =>
          if pyStrip out = v then
            get_module_paths_go minfo (adelete (modnameOf mp) mods)
              (acc ++ [mp]) rest
          else get_module_paths_go minfo mods acc rest

/-- `get_module_paths` (savedump.py lines 134-197) from the point where the
name-to-srcversion map and the filesystem enumeration are fixed: returns the
matched paths in discovery order together with the still-pending (unresolved)
map entries, which the source then reports as a warning. -/
def get_module_paths (minfo : Str → ToolRes)
    (mod_name_srcvers : List (Str × Str)) (candidates : List Str) :
    Except Str (List Str × List (Str × Str)) :=
  get_module_paths_go minfo mod_name_srcvers [] candidates

/-- A candidate file fingerprint-matches the record map: its module name maps
to a non-empty srcversion equal, byte for byte, to the stripped `modinfo`
output for the candidate. -/
def matchCond (minfo : Str → ToolRes) (mods : List (Str × Str))
    (c : Str) : Prop :=
  ∃ v out, alookup (modnameOf c) mods = some v ∧ v ≠ [] ∧
    minfo c = .ok out ∧ pyStrip out = v

namespace Prog

/-- The section-scanning loop of prog.py's `binary_includes_debug_info`
(prog.py lines 278-286): identical to savedump.py's except that the
both-sections branch returns `False` rather than `True`. -/
def bidi_loop : List Str → Bool → Bool → Bool
  | [], _, _ => false
  | line :: rest, seen_info, seen_str =>
    let di := seen_info || strIn (strLit ".debug_info") line
    let ds := seen_str || strIn (strLit ".debug_str") line
    if di && ds then false else Prog.bidi_loop rest di ds

/-- prog.py's `binary_includes_debug_info` (prog.py lines 252-286). -/
def binary_includes_debug_info (res : ToolRes) : Option Bool :=
  match res with
  | .ok out => some (Prog.bidi_loop (splitlines out) false false)
  | _ => none

/-- prog.py's `get_debug_info_path` (prog.py lines 289-326): same note
scanning as savedump.py, but the assert consults prog.py's
`binary_includes_debug_info`. -/
def get_debug_info_path (sect notes : ToolRes) (fs : Str → Bool) :
    Except PyExn (Option Str) :=
  if Prog.binary_includes_debug_info sect = some true then
    .error .assertionError
  else
    match notes with
    | .ok out => gdip_loop fs (splitlines out)
    | _ => .ok none

end Prog

/-- The `=> path` / dynamic-linker extraction applied to one (already
line-split) ldd output line, used to characterise `ldd_parse_lines`. -/
def lddExtract (line : Str) : Option Str :=
  if strIn (strLit "=>") (pyStrip line) then
    match (splitWs (pyStrip line))[2]? with
    | some tok => some tok
    | none => none
  else if strIn (strLit "ld-linux-") (pyStrip line) then
    (splitWs (pyStrip line))[0]?
  else none

/-- The path extraction applied to one post-header gdb report line, used to
characterise `gdb_parse_lines`. -/
def gdbExtract (fs : Str → Bool) (line : Str) : Option Str :=
  match extractGdbPath line with
  | some p => if fs p then some p else none
  | none => none

/-- The lines strictly after the first gdb table header line. -/
def afterHeader : List Str → List Str
  | [] => []
  | line :: rest =>
    if strIn sharedObjHeader line then rest else afterHeader rest

/-- The run exited through one of the two `BinaryNotFound` call sites of
`archive_userland_core_dump` (savedump.py lines 493-497). -/
def IsBinaryNotFound (o : UOutcome) : Prop :=
  o = .exited .binaryNotFoundNoPattern ∨
    ∃ p, o = .exited (.binaryNotFoundMissing p)

/-! ## General lemmas about the embedded parsers -/

/-- A dummy environment used to instantiate theorems at concrete inputs. -/
def envWithMissingFile : UserEnv :=
  { file_core := .missing, fs := fun _ => false, gdb := .missing,
    ldd := .missing, readelf_S := fun _ => .missing,
    readelf_n := fun _ => .missing, tar := .missing, copy_ok := true }

lemma gdb_parse_lines_rec (fs : Str → Bool) (lines : List Str) :
    gdb_parse_lines fs lines true = lines.filterMap (gdbExtract fs) := by
  induction lines with
  | nil => rfl
  | cons line rest ih =>
    simp only [gdb_parse_lines, List.filterMap_cons, gdbExtract]
    cases h : extractGdbPath line with
    | none => simpa using ih
    | some p => cases hf : fs p <;> simp [hf, ih]

lemma gdb_parse_lines_start (fs : Str → Bool) (lines : List Str) :
    gdb_parse_lines fs lines false =
      (afterHeader lines).filterMap (gdbExtract fs) := by
  induction lines with
  | nil => rfl
  | cons line rest ih =>
    cases h : strIn sharedObjHeader line <;>
      simp [gdb_parse_lines, afterHeader, h, ih, gdb_parse_lines_rec]

lemma ldd_parse_lines_ok (lines : List Str) :
    ∀ libs, ldd_parse_lines lines = .ok libs →
      libs = lines.filterMap lddExtract := by
  induction lines with
  | nil =>
    intro libs h
    simp only [ldd_parse_lines] at h
    cases h
    rfl
  | cons line rest ih =>
    intro libs h
    simp only [ldd_parse_lines] at h
    by_cases h1 : strIn (strLit "=>") (pyStrip line) = true
    · rw [if_pos h1] at h
      cases h2 : (splitWs (pyStrip line))[2]? with
      | none => rw [h2] at h; cases h
      | some tok =>
        rw [h2] at h
        cases h3 : ldd_parse_lines rest with
        | error e => rw [h3] at h; cases h
        | ok libs2 =>
          rw [h3] at h
          cases h
          simp [List.filterMap_cons, lddExtract, h1, h2, ih libs2 h3]
    · rw [if_neg h1] at h
      by_cases h4 : strIn (strLit "ld-linux-") (pyStrip line) = true
      · rw [if_pos h4] at h
        cases h2 : (splitWs (pyStrip line))[0]? with
        | none => rw [h2] at h; cases h
        | some tok =>
          rw [h2] at h
          cases h3 : ldd_parse_lines rest with
          | error e => rw [h3] at h; cases h
          | ok libs2 =>
            rw [h3] at h
            cases h
            simp [List.filterMap_cons, lddExtract, h1, h4, h2, ih libs2 h3]
      · rw [if_neg h4] at h
        simp [List.filterMap_cons, lddExtract, h1, h4, ih libs h]

/-! ## C1: dump classification -/

/-- C1 counterexample: a probe output containing both the system-dump marker
and the process marker `core file` is classified as CRASHDUMP (SYSTEM), not
UCOREDUMP (PROCESS), because the enum loop checks CRASHDUMP first — so the
claimed "vice versa" direction (process marker implies PROCESS) is false. -/
theorem c1_both_markers_counterexample :
    strIn (dumpTypeValue .UCOREDUMP)
        (strLit "Kdump compressed dump of a core file") = true ∧
    get_dump_type (strLit "Kdump compressed dump of a core file") =
      some .CRASHDUMP := by
  decide

/-- C1 (amended): a probe output containing the system-dump marker always
classifies as SYSTEM (never PROCESS); one containing the process marker but
not the system marker classifies as PROCESS; and one containing neither makes
the run end with the fatal unknown-kind exit, producing no archive. -/
theorem c1_classification (out : Str) (env : MainEnv) :
    (strIn (dumpTypeValue .CRASHDUMP) out = true →
      get_dump_type out = some .CRASHDUMP) ∧
    (strIn (dumpTypeValue .CRASHDUMP) out = false →
      strIn (dumpTypeValue .UCOREDUMP) out = true →
      get_dump_type out = some .UCOREDUMP) ∧
    (strIn (dumpTypeValue .CRASHDUMP) out = false →
      strIn (dumpTypeValue .UCOREDUMP) out = false →
      get_dump_type out = none ∧
      (env.u.file_core = .ok out →
        savedump_main env = (.exited .unknownCoreType, false) ∧
        (savedump_main env).1 ≠ .archived)) := by
  refine ⟨?_, ?_, ?_⟩
  · intro h
    simp [get_dump_type, h]
  · intro h1 h2
    simp [get_dump_type, h1, h2]
  · intro h1 h2
    have hgdt : get_dump_type out = none := by simp [get_dump_type, h1, h2]
    refine ⟨hgdt, fun hf => ?_⟩
    constructor
    · simp [savedump_main, hf, hgdt]
    · simp [savedump_main, hf, hgdt]

/-- C1 witness: the amended classification evaluated on concrete probe
outputs containing exactly one marker, and on one containing neither. -/
theorem c1_classification_witness :
    get_dump_type (strLit "Kdump compressed dump, x86-64") =
        some DumpType.CRASHDUMP ∧
    get_dump_type (strLit "ELF 64-bit core file x86-64") =
        some DumpType.UCOREDUMP ∧
    get_dump_type (strLit "ASCII text") = none := by
  refine ⟨?_, ?_, ?_⟩
  · exact (c1_classification (strLit "Kdump compressed dump, x86-64")
      ⟨envWithMissingFile, (.archived, false)⟩).1 (by decide)
  · exact (c1_classification (strLit "ELF 64-bit core file x86-64")
      ⟨envWithMissingFile, (.archived, false)⟩).2.1 (by decide) (by decide)
  · exact ((c1_classification (strLit "ASCII text")
      ⟨envWithMissingFile, (.archived, false)⟩).2.2 (by decide) (by decide)).1

/-! ## C2: dependency-list deduplication and ordering -/

/-- C2 counterexample: a gdb report that lists the same (existing) path on
two rows yields that path twice — the returned library list is not
deduplicated. -/
theorem c2_duplicate_counterexample :
    get_libraries_through_gdb
        (.ok (strLit "Shared Object Library\n/a\n/a")) (fun _ => true) =
      some [strLit "/a", strLit "/a"] ∧
    ¬ List.Nodup [strLit "/a", strLit "/a"] := by
  constructor
  · decide
  · decide

/-- C2 (amended): both resolvers preserve first-discovery (line) order but do
not deduplicate: the gdb list is exactly the per-line path extraction of the
rows after the header, in row order, and a successfully parsed ldd list is
exactly the per-line extraction in line order — a path occurring on several
lines therefore occurs several times. -/
theorem c2_discovery_order :
    (∀ (fs : Str → Bool) (out : Str),
      get_libraries_through_gdb (.ok out) fs =
        some ((afterHeader (splitlines out)).filterMap (gdbExtract fs))) ∧
    (∀ (lines : List Str) (libs : List Str),
      ldd_parse_lines lines = .ok libs → libs = lines.filterMap lddExtract) := by
  constructor
  · intro fs out
    simp [get_libraries_through_gdb, gdb_parse_lines_start]
  · intro lines libs h
    exact ldd_parse_lines_ok lines libs h

/-- C2 witness: the order-preserving characterisation evaluated on the
duplicate-row report and on a two-line ldd output. -/
theorem c2_discovery_order_witness :
    get_libraries_through_gdb
        (.ok (strLit "Shared Object Library\n/b\n/a")) (fun _ => true) =
      some ((afterHeader (splitlines (strLit "Shared Object Library\n/b\n/a"))).filterMap
        (gdbExtract (fun _ => true))) ∧
    [strLit "/lib/x.so"] =
      (splitlines (strLit "x.so => /lib/x.so (0x1000)")).filterMap lddExtract := by
  constructor
  · exact c2_discovery_order.1 (fun _ => true)
      (strLit "Shared Object Library\n/b\n/a")
  · exact c2_discovery_order.2
      (splitlines (strLit "x.so => /lib/x.so (0x1000)"))
      [strLit "/lib/x.so"] rfl

/-! ## C5: fallback strategy policy -/

/-- C5: the ldd fallback is attempted exactly when the gdb strategy returns
no result, which happens exactly when the gdb invocation itself fails (tool
missing or non-zero exit); a gdb success — even with an empty library list —
short-circuits the fallback; and when both invocations fail the run exits
with the `both gdb(1) and ldd(1) fail to execute` message. -/
theorem c5_fallback_policy (env : UserEnv) :
    ((resolve_libraries env).2 = true ↔
      get_libraries_through_gdb env.gdb env.fs = none) ∧
    (get_libraries_through_gdb env.gdb env.fs = none ↔
      ∀ out, env.gdb ≠ .ok out) ∧
    (∀ libs, get_libraries_through_gdb env.gdb env.fs = some libs →
      resolve_libraries env = (.ok libs, false)) ∧
    ((∀ out, env.gdb ≠ .ok out) → (∀ out, env.ldd ≠ .ok out) →
      resolve_libraries env = (.error (.exited .depToolsUnavailable), true)) := by
  refine ⟨?_, ?_, ?_, ?_⟩
  · cases hg : get_libraries_through_gdb env.gdb env.fs with
    | none =>
      cases hl : get_libraries_through_ldd env.ldd with
      | error e => simp [resolve_libraries, hg, hl]
      | ok o => cases o <;> simp [resolve_libraries, hg, hl]
    | some libs => simp [resolve_libraries, hg]
  · cases hgdb : env.gdb with
    | ok o =>
      constructor
      · intro h; simp [get_libraries_through_gdb] at h
      · intro h; exact absurd rfl (h o)
    | missing => simp [get_libraries_through_gdb]
    | failed m => simp [get_libraries_through_gdb]
  · intro libs h
    simp [resolve_libraries, h]
  · intro hg hl
    have h1 : get_libraries_through_gdb env.gdb env.fs = none := by
      cases hgdb : env.gdb with
      | ok o => exact absurd hgdb (hg o)
      | missing => simp [get_libraries_through_gdb]
      | failed m => simp [get_libraries_through_gdb]
    have h2 : get_libraries_through_ldd env.ldd = .ok none := by
      cases hldd : env.ldd with
      | ok o => exact absurd hldd (hl o)
      | missing => simp [get_libraries_through_ldd]
      | failed m => simp [get_libraries_through_ldd]
    simp [resolve_libraries, h1, h2]

/-- C5 witness: with gdb exiting non-zero and ldd absent, the fallback is
attempted and the run exits with the dependency-tools failure. -/
theorem c5_fallback_policy_witness :
    resolve_libraries
        { envWithMissingFile with
            gdb := ToolRes.failed (strLit "boom")
            ldd := ToolRes.missing } =
      (.error (.exited .depToolsUnavailable), true) :=
  (c5_fallback_policy _).2.2.2 (fun out h => by cases h) (fun out h => by cases h)

/-! ## C7: staging-directory cleanup -/

/-- C7 counterexample: when a copy step fails, the exception propagates
before `shutil.rmtree` runs and the staging directory is left on disk — so
the claim that the staging directory never survives an assembly call is
false. -/
theorem c7_staging_left_counterexample :
    archive_and_cleanup false (.ok []) = (.raised .osError, true) := by
  rfl

/-- C7 (amended): whenever the copy steps succeed, the staging directory is
removed before the function returns, on compression success and failure
alike; only a copy-step exception leaves it behind. -/
theorem c7_cleanup (tar : ToolRes) :
    (archive_and_cleanup true tar).2 = false := by
  cases tar <;> rfl

/-- C7 witness: the amended cleanup property evaluated at a failing
compressor. -/
theorem c7_cleanup_witness :
    (archive_and_cleanup true (.failed (strLit "tar: error"))).2 = false :=
  c7_cleanup (.failed (strLit "tar: error"))

/-! ## C9: prog.py's inverted debug-info check -/

lemma prog_bidi_loop_false (lines : List Str) :
    ∀ seen_info seen_str, Prog.bidi_loop lines seen_info seen_str = false := by
  induction lines with
  | nil => intro _ _; rfl
  | cons l rest ih =>
    intro seen_info seen_str
    simp only [Prog.bidi_loop]
    split
    · rfl
    · exact ih _ _

lemma gdip_loop_ne_assert (fs : Str → Bool) (lines : List Str) :
    gdip_loop fs lines ≠ .error .assertionError := by
  induction lines with
  | nil => simp [gdip_loop]
  | cons l rest ih =>
    simp only [gdip_loop]
    split
    · split
      · simp
      · split <;> simp
    · exact ih

/-- C9: in prog.py, `binary_includes_debug_info` returns `False` for every
binary whose section probe succeeds — including outputs listing both
`.debug_info` and `.debug_str` — and never returns `True`, so every
successfully probed binary is treated as stripped and the assert in prog.py's
`get_debug_info_path` can never fire. -/
theorem c9_prog_debug_info_never_true :
    (∀ out : Str, Prog.binary_includes_debug_info (.ok out) = some false) ∧
    (∀ res : ToolRes, Prog.binary_includes_debug_info res ≠ some true) ∧
    (∀ (sect notes : ToolRes) (fs : Str → Bool),
      Prog.get_debug_info_path sect notes fs ≠ .error .assertionError) := by
  refine ⟨?_, ?_, ?_⟩
  · intro out
    simp [Prog.binary_includes_debug_info, prog_bidi_loop_false]
  · intro res
    cases res <;> simp [Prog.binary_includes_debug_info, prog_bidi_loop_false]
  · intro sect notes fs
    have hne : ¬ Prog.binary_includes_debug_info sect = some true := by
      cases sect <;>
        simp [Prog.binary_includes_debug_info, prog_bidi_loop_false]
    simp only [Prog.get_debug_info_path, if_neg hne]
    cases notes with
    | ok out => exact gdip_loop_ne_assert fs (splitlines out)
    | missing => simp
    | failed m => simp

/-- C9 witness: evaluated on a section-header output that does contain both
debug sections — prog.py still reports `False`, and the assert passes. -/
theorem c9_prog_debug_info_never_true_witness :
    Prog.binary_includes_debug_info
        (.ok (strLit "  [28] .debug_info\n  [29] .debug_str")) = some false :=
  c9_prog_debug_info_never_true.1
    (strLit "  [28] .debug_info\n  [29] .debug_str")

/-! ## C3 and C10: the debug-info locator -/

lemma bidi_loop_complete (lines : List Str) :
    ∀ seen_info seen_str : Bool,
      (seen_info = true ∨ ∃ l ∈ lines, strIn (strLit ".debug_info") l = true) →
      (seen_str = true ∨ ∃ l ∈ lines, strIn (strLit ".debug_str") l = true) →
      ¬(seen_info = true ∧ seen_str = true) →
      bidi_loop lines seen_info seen_str = true := by
  induction lines with
  | nil =>
    intro si ss hi hs hne
    exfalso
    apply hne
    constructor
    · rcases hi with h | ⟨l, hl, _⟩
      · exact h
      · cases hl
    · rcases hs with h | ⟨l, hl, _⟩
      · exact h
      · cases hl
  | cons l rest ih =>
    intro si ss hi hs hne
    by_cases hb : ((si || strIn (strLit ".debug_info") l) &&
        (ss || strIn (strLit ".debug_str") l)) = true
    · simp only [bidi_loop]
      rw [if_pos hb]
    · have hrec : bidi_loop rest (si || strIn (strLit ".debug_info") l)
          (ss || strIn (strLit ".debug_str") l) = true := by
        apply ih
        · rcases hi with h | ⟨l0, hl0, h0⟩
          · left; simp [h]
          · rcases List.mem_cons.mp hl0 with rfl | hmem
            · left; simp [h0]
            · right; exact ⟨l0, hmem, h0⟩
        · rcases hs with h | ⟨l0, hl0, h0⟩
          · left; simp [h]
          · rcases List.mem_cons.mp hl0 with rfl | hmem
            · left; simp [h0]
            · right; exact ⟨l0, hmem, h0⟩
        · rintro ⟨h1, h2⟩
          exact hb (by rw [h1, h2]; rfl)
      simp only [bidi_loop]
      rw [if_neg hb]
      exact hrec

lemma gdip_loop_eq_find (fs : Str → Bool) (lines : List Str) :
    gdip_loop fs lines =
      match lines.find? (fun l => strIn bidMarker l) with
      | none => .ok none
      | some l =>
        match (splitWs l)[2]? with
        | none => .error .indexError
        | some bid =>
          if fs (dbgPath bid) then .ok (some (dbgPath bid)) else .ok none := by
  induction lines with
  | nil => rfl
  | cons l rest ih =>
    cases h : strIn bidMarker l with
    | true =>
      rw [List.find?_cons_of_pos _ (by simpa using h)]
      simp [gdip_loop, h]
    | false =>
      rw [List.find?_cons_of_neg _ (by simp [h])]
      simp only [gdip_loop]
      rw [if_neg (by simp [h])]
      exact ih

lemma find?_append_of_none {p : Str → Bool} (pre rest : List Str)
    (h : ∀ m ∈ pre, p m = false) :
    (pre ++ rest).find? p = rest.find? p := by
  induction pre with
  | nil => rfl
  | cons a pre ih =>
    rw [List.cons_append,
      List.find?_cons_of_neg _ (by simp [h a (List.mem_cons_self a pre)])]
    exact ih (fun m hm => h m (List.mem_cons_of_mem a hm))

/-- C3 counterexample: a stripped binary (section probe shows neither debug
section) whose notes probe yields the line `Build ID:` with no id token makes
`get_debug_info_path` raise `IndexError` (Python's `line.split()[2]` is out
of range) — contradicting the claim that the "neither holds" case returns
"not found" without raising an exception. -/
theorem c3_malformed_build_id_counterexample :
    binary_includes_debug_info (.ok []) = some false ∧
    get_debug_info_path (.ok []) (.ok (strLit "Build ID:")) (fun _ => false) =
      .error .indexError :=
  ⟨rfl, rfl⟩

/-- C3 (amended): a binary whose section probe shows both `.debug_info` and
`.debug_str` reports embedded debug info (and the archive loop skips the
separate-file lookup); a stripped binary whose first build-id note line
carries an id whose computed path exists yields exactly that path; a binary
with neither yields "not found" without raising, provided every line of the
notes output containing `Build ID:` carries at least three
whitespace-separated tokens — a malformed `Build ID:` line instead raises
`IndexError`. -/
theorem c3_debug_locator :
    (∀ out : Str,
      (∃ l ∈ splitlines out, strIn (strLit ".debug_info") l = true) →
      (∃ l ∈ splitlines out, strIn (strLit ".debug_str") l = true) →
      binary_includes_debug_info (.ok out) = some true) ∧
    (∀ (env : UserEnv) (dep : Str) (rest : List Str),
      binary_includes_debug_info (env.readelf_S dep) = some true →
      debug_loop env (dep :: rest) = debug_loop env rest) ∧
    (∀ (sect : ToolRes) (nout l bid : Str) (fs : Str → Bool),
      binary_includes_debug_info sect = some false →
      (splitlines nout).find? (fun m => strIn bidMarker m) = some l →
      (splitWs l)[2]? = some bid →
      fs (dbgPath bid) = true →
      get_debug_info_path sect (.ok nout) fs = .ok (some (dbgPath bid))) ∧
    (∀ (sect notes : ToolRes) (fs : Str → Bool),
      ¬ binary_includes_debug_info sect = some true →
      (∀ nout, notes = .ok nout →
        ∀ l, (splitlines nout).find? (fun m => strIn bidMarker m) = some l →
          ∃ bid, (splitWs l)[2]? = some bid ∧ fs (dbgPath bid) = false) →
      get_debug_info_path sect notes fs = .ok none) := by
  refine ⟨?_, ?_, ?_, ?_⟩
  · intro out h1 h2
    simp only [binary_includes_debug_info]
    rw [bidi_loop_complete (splitlines out) false false (Or.inr h1)
      (Or.inr h2) (by simp)]
  · intro env dep rest h
    simp [debug_loop, h]
  · intro sect nout l bid fs hsect hfind hbid hfs
    have hne : ¬ binary_includes_debug_info sect = some true := by
      rw [hsect]; simp
    simp only [get_debug_info_path, if_neg hne]
    rw [gdip_loop_eq_find, hfind]
    simp [hbid, hfs]
  · intro sect notes fs hsect hn
    simp only [get_debug_info_path, if_neg hsect]
    cases notes with
    | ok nout =>
      show gdip_loop fs (splitlines nout) = Except.ok none
      rw [gdip_loop_eq_find]
      cases hf : (splitlines nout).find? (fun l => strIn bidMarker l) with
      | none => rfl
      | some l =>
        obtain ⟨bid, hbid, hfs⟩ := hn nout rfl l hf
        simp [hbid, hfs]
    | missing => rfl
    | failed m => rfl

/-- C3 witness: the located-path case evaluated on a concrete stripped binary
whose build-id path exists. -/
theorem c3_debug_locator_witness :
    get_debug_info_path (.ok []) (.ok (strLit "  Build ID: ab12cd"))
        (fun p => decide (p = dbgPath (strLit "ab12cd"))) =
      .ok (some (dbgPath (strLit "ab12cd"))) :=
  c3_debug_locator.2.2.1 (.ok []) (strLit "  Build ID: ab12cd")
    (strLit "  Build ID: ab12cd") (strLit "ab12cd")
    (fun p => decide (p = dbgPath (strLit "ab12cd")))
    rfl rfl rfl rfl

/-- C10: the lookup inspects only the first line containing `Build ID:`:
when the path computed from that line's id does not exist, the result is
"not found", and it is the same for every possible tail of later lines
(later `Build ID:` lines are never examined because of the `break`). -/
theorem c10_first_build_id_line (sect : ToolRes) (fs : Str → Bool)
    (nout l bid : Str) (pre rest : List Str)
    (hsect : ¬ binary_includes_debug_info sect = some true)
    (hsplit : splitlines nout = pre ++ l :: rest)
    (hpre : ∀ m ∈ pre, strIn bidMarker m = false)
    (hl : strIn bidMarker l = true)
    (hbid : (splitWs l)[2]? = some bid)
    (hfs : fs (dbgPath bid) = false) :
    get_debug_info_path sect (.ok nout) fs = .ok none ∧
    ∀ rest' : List Str, gdip_loop fs (pre ++ l :: rest') = .ok none := by
  have hloop : ∀ rest' : List Str,
      gdip_loop fs (pre ++ l :: rest') = .ok none := by
    intro rest'
    rw [gdip_loop_eq_find, find?_append_of_none pre (l :: rest') hpre,
      List.find?_cons_of_pos _ (by simpa using hl)]
    simp [hbid, hfs]
  refine ⟨?_, hloop⟩
  simp only [get_debug_info_path, if_neg hsect]
  rw [hsplit]
  exact hloop rest

/-- C10 witness: a notes output with two `Build ID:` lines, the first of
whose computed paths does not exist — the result is "not found" and the
second line is never reached. -/
theorem c10_first_build_id_line_witness :
    get_debug_info_path (.ok [])
        (.ok (strLit "note\n  Build ID: ffee\n  Build ID: 0bad"))
        (fun _ => false) = .ok none :=
  (c10_first_build_id_line (.ok []) (fun _ => false)
    (strLit "note\n  Build ID: ffee\n  Build ID: 0bad")
    (strLit "  Build ID: ffee") (strLit "ffee")
    [strLit "note"] [strLit "  Build ID: 0bad"]
    (by decide) rfl (by decide) rfl rfl rfl).1

/-! ## C6: BinaryNotFound characterisation -/

lemma execfnScanGo_length (s : Str) :
    ∀ acc g : Str, execfnScanGo acc s = some g → acc.length ≤ g.length := by
  induction s with
  | nil =>
    intro acc g h
    simp [execfnScanGo] at h
  | cons c rest ih =>
    intro acc g h
    simp only [execfnScanGo] at h
    by_cases h1 : (c == quoteChar && headIsComma rest) = true
    · rw [if_pos h1] at h
      cases h
      simp
    · rw [if_neg h1] at h
      by_cases h2 : (c == '\n') = true
      · rw [if_pos h2] at h
        cases h
      · rw [if_neg h2] at h
        have := ih (c :: acc) g h
        simp at this
        omega

lemma execfnScan_ne_nil (t : Str) :
    ∀ g, execfnScan t = some g → g ≠ [] := by
  intro g h
  cases t with
  | nil => simp [execfnScan] at h
  | cons c r =>
    simp only [execfnScan] at h
    by_cases h2 : (c == '\n') = true
    · rw [if_pos h2] at h
      cases h
    · rw [if_neg h2] at h
      have := execfnScanGo_length r [c] g h
      intro hg
      rw [hg] at this
      simp at this

lemma execfn_search_ne_nil (s : Str) :
    ∀ g, execfn_search s = some g → g ≠ [] := by
  induction s with
  | nil =>
    intro g h
    simp [execfn_search] at h
  | cons c rest ih =>
    intro g h
    simp only [execfn_search] at h
    by_cases h1 : isPrefixOfB execfnLabel (c :: rest) = true
    · rw [if_pos h1] at h
      cases hs : execfnScan ((c :: rest).drop 9) with
      | some g0 =>
        rw [hs] at h
        cases h
        exact execfnScan_ne_nil _ g hs
      | none =>
        rw [hs] at h
        exact ih g h
    · rw [if_neg h1] at h
      exact ih g h

lemma resolve_libraries_shapes (env : UserEnv) :
    (∃ libs b, resolve_libraries env = (.ok libs, b)) ∨
    (∃ e b, resolve_libraries env = (.error (.raised e), b)) ∨
    (∃ b, resolve_libraries env = (.error (.exited .depToolsUnavailable), b)) := by
  cases hg : get_libraries_through_gdb env.gdb env.fs with
  | some libs => exact Or.inl ⟨libs, false, by simp [resolve_libraries, hg]⟩
  | none =>
    cases hl : get_libraries_through_ldd env.ldd with
    | error e =>
      exact Or.inr (Or.inl ⟨e, true, by simp [resolve_libraries, hg, hl]⟩)
    | ok o =>
      cases o with
      | some libs =>
        exact Or.inl ⟨libs, true, by simp [resolve_libraries, hg, hl]⟩
      | none => exact Or.inr (Or.inr ⟨true, by simp [resolve_libraries, hg, hl]⟩)

/-- C6: with a successful `file` probe classifying the artifact as a process
core, the run ends in a `BinaryNotFound` exit exactly when the quoted
`execfn:` pattern is absent from the probe output or the extracted path does
not exist on disk, and in that case the run produced no archive (and never
created the staging directory). -/
theorem c6_binary_not_found (env : UserEnv) (out : Str)
    (hfile : env.file_core = .ok out)
    (hkind : get_dump_type out = some .UCOREDUMP) :
    (IsBinaryNotFound (archive_userland_core_dump env).1 ↔
      (execfn_search out = none ∨
        ∃ p, execfn_search out = some p ∧ env.fs p = false)) ∧
    (IsBinaryNotFound (archive_userland_core_dump env).1 →
      (archive_userland_core_dump env).1 ≠ .archived ∧
      (archive_userland_core_dump env).2 = false) := by
  have hbin : get_binary_path_from_userland_core env =
      .ok (execfn_search out) := by
    simp [get_binary_path_from_userland_core, hfile, hkind]
  cases hs : execfn_search out with
  | none =>
    have harch : archive_userland_core_dump env =
        (.exited .binaryNotFoundNoPattern, false) := by
      simp [archive_userland_core_dump, hbin, hs]
    constructor
    · rw [harch]
      exact iff_of_true (Or.inl rfl) (Or.inl rfl)
    · rw [harch]
      intro _
      exact ⟨by simp, rfl⟩
  | some p =>
    have hpe : p.isEmpty = false := by
      have := execfn_search_ne_nil out p hs
      cases p with
      | nil => exact absurd rfl this
      | cons a q => rfl
    cases hf : env.fs p with
    | false =>
      have harch : archive_userland_core_dump env =
          (.exited (.binaryNotFoundMissing p), false) := by
        simp [archive_userland_core_dump, hbin, hs, hpe, hf]
      constructor
      · rw [harch]
        exact iff_of_true (Or.inr ⟨p, rfl⟩) (Or.inr ⟨p, rfl, hf⟩)
      · rw [harch]
        intro _
        exact ⟨by simp, rfl⟩
    | true =>
      have hRHS : ¬((some p : Option Str) = none ∨
          ∃ q, (some p : Option Str) = some q ∧ env.fs q = false) := by
        rintro (h | ⟨q, hq, hfq⟩)
        · cases h
        · cases hq
          rw [hf] at hfq
          cases hfq
      have harch : archive_userland_core_dump env =
          match resolve_libraries env with
          | (.error o, _) => (o, false)
          | (.ok libraries, _) =>
            match debug_loop env (p :: libraries) with
            | .error e => (.raised e, false)
            | .ok _ => archive_and_cleanup env.copy_ok env.tar := by
        simp [archive_userland_core_dump, hbin, hs, hpe, hf]
      have hnb : ¬ IsBinaryNotFound (archive_userland_core_dump env).1 := by
        rw [harch]
        rcases resolve_libraries_shapes env with
          ⟨libs, b, hr⟩ | ⟨e, b, hr⟩ | ⟨b, hr⟩
        · rw [hr]
          show ¬ IsBinaryNotFound
            (match debug_loop env (p :: libs) with
              | .error e => (UOutcome.raised e, false)
              | .ok _ => archive_and_cleanup env.copy_ok env.tar).1
          cases hd : debug_loop env (p :: libs) with
          | error e => simp [IsBinaryNotFound]
          | ok ps =>
            cases hc : env.copy_ok <;> cases ht : env.tar <;>
              simp [archive_and_cleanup, compress_archive, IsBinaryNotFound]
        · rw [hr]
          simp [IsBinaryNotFound]
        · rw [hr]
          simp [IsBinaryNotFound]
      exact ⟨iff_of_false hnb hRHS, fun h => absurd h hnb⟩

/-- C6 witness: a probe output with no `execfn:` pattern ends in the
BinaryNotFound exit, and one with a pattern whose path is missing on disk
does too. -/
theorem c6_binary_not_found_witness :
    IsBinaryNotFound (archive_userland_core_dump
      { envWithMissingFile with
          file_core := ToolRes.ok (strLit "ELF core file, no pattern") }).1 :=
  ((c6_binary_not_found
    { envWithMissingFile with
        file_core := ToolRes.ok (strLit "ELF core file, no pattern") }
    (strLit "ELF core file, no pattern") rfl (by decide)).1).mpr
    (Or.inl (by decide))

/-! ## C8: behaviour on missing tools -/

lemma get_module_paths_go_missing (cs : List Str) :
    ∀ (mods : List (Str × Str)) (acc : List Str),
      (∃ c ∈ cs, ∃ v, alookup (modnameOf c) mods = some v ∧ v ≠ []) →
      ∃ m, get_module_paths_go (fun _ => ToolRes.missing) mods acc cs =
        .error m := by
  induction cs with
  | nil =>
    rintro mods acc ⟨c, hc, _⟩
    cases hc
  | cons c0 rest ih =>
    rintro mods acc ⟨c, hc, v, hv, hvne⟩
    cases hl : alookup (modnameOf c0) mods with
    | none =>
      have hstep : get_module_paths_go (fun _ => ToolRes.missing) mods acc
          (c0 :: rest) =
          get_module_paths_go (fun _ => ToolRes.missing) mods acc rest := by
        simp [get_module_paths_go, hl]
      rw [hstep]
      rcases List.mem_cons.mp hc with rfl | hmem
      · rw [hl] at hv
        cases hv
      · exact ih mods acc ⟨c, hmem, v, hv, hvne⟩
    | some v0 =>
      by_cases hve : v0.isEmpty = true
      · have hstep : get_module_paths_go (fun _ => ToolRes.missing) mods acc
            (c0 :: rest) =
            get_module_paths_go (fun _ => ToolRes.missing) mods acc rest := by
          simp [get_module_paths_go, hl, hve]
        rw [hstep]
        rcases List.mem_cons.mp hc with rfl | hmem
        · rw [hl] at hv
          cases hv
          rw [List.isEmpty_iff] at hve
          exact absurd hve hvne
        · exact ih mods acc ⟨c, hmem, v, hv, hvne⟩
      · have hstep : get_module_paths_go (fun _ => ToolRes.missing) mods acc
            (c0 :: rest) =
            .error (strLit "could not find program: modinfo") := by
          simp [get_module_paths_go, hl, hve]
        exact ⟨_, hstep⟩

/-- C8 counterexample: with gdb absent from the environment but every other
tool behaving, the run does not abort — the ldd fallback is taken and an
archive is produced, contradicting the claim that any tool invocation whose
program cannot be found prevents an archive. -/
theorem c8_missing_gdb_counterexample :
    (archive_userland_core_dump
      { file_core := .ok (strLit "core file, execfn: " ++ [quoteChar] ++
          strLit "/bin/x" ++ [quoteChar] ++ strLit ", platform")
        fs := fun p => decide (p = strLit "/bin/x")
        gdb := .missing
        ldd := .ok []
        readelf_S := fun _ => .ok (strLit ".debug_info .debug_str")
        readelf_n := fun _ => .ok []
        tar := .ok []
        copy_ok := true }).1 = .archived := by
  decide

/-- C8 (amended): a missing `file` probe aborts the run immediately with the
tool-missing failure (no archive), and a missing `modinfo` aborts kernel
module matching as soon as a candidate must be queried; but tool absence is
not universally fatal — gdb's absence merely triggers the ldd fallback (see
the counterexample), and readelf's absence degrades to the
could-not-find-debug-info warning: the debug-info loop then contributes no
separate debug file and processing continues, so a run with readelf entirely
absent still produces an archive (last conjunct). -/
theorem c8_tool_missing :
    (∀ env : MainEnv, env.u.file_core = .missing →
      savedump_main env = (.exited (.toolFailure (strLit "file")), false) ∧
      (savedump_main env).1 ≠ .archived) ∧
    (∀ (mods : List (Str × Str)) (cands : List Str),
      (∃ c ∈ cands, ∃ v, alookup (modnameOf c) mods = some v ∧ v ≠ []) →
      ∃ m, get_module_paths (fun _ => ToolRes.missing) mods cands =
        .error m) ∧
    (∀ (env : UserEnv) (deps : List Str),
      (∀ dep ∈ deps, env.readelf_S dep = .missing) →
      (∀ dep ∈ deps, env.readelf_n dep = .missing) →
      debug_loop env deps = .ok []) ∧
    (archive_userland_core_dump
      { file_core := .ok (strLit "core file, execfn: " ++ [quoteChar] ++
          strLit "/bin/x" ++ [quoteChar] ++ strLit ", platform")
        fs := fun p => decide (p = strLit "/bin/x")
        gdb := .ok (strLit "no table")
        ldd := .missing
        readelf_S := fun _ => .missing
        readelf_n := fun _ => .missing
        tar := .ok []
        copy_ok := true }).1 = .archived := by
  refine ⟨?_, ?_, ?_, ?_⟩
  · intro env h
    constructor
    · simp [savedump_main, h]
    · simp [savedump_main, h]
  · intro mods cands hex
    exact get_module_paths_go_missing cands mods [] hex
  · intro env deps
    induction deps with
    | nil => intro _ _; rfl
    | cons dep rest ih =>
      intro hS hn
      have h1 : env.readelf_S dep = .missing :=
        hS dep (List.mem_cons_self _ _)
      have h2 : env.readelf_n dep = .missing :=
        hn dep (List.mem_cons_self _ _)
      have hrec := ih (fun d hd => hS d (List.mem_cons_of_mem _ hd))
        (fun d hd => hn d (List.mem_cons_of_mem _ hd))
      simp [debug_loop, h1, h2, get_debug_info_path,
        binary_includes_debug_info, hrec]
  · decide

/-- C8 witness: the amended behaviour evaluated on a concrete environment
with the `file` probe absent, on a concrete module map with `modinfo` absent,
and on the debug-info loop with both readelf probes absent. -/
theorem c8_tool_missing_witness :
    savedump_main ⟨envWithMissingFile, (.archived, false)⟩ =
      (.exited (.toolFailure (strLit "file")), false) ∧
    (∃ m, get_module_paths (fun _ => ToolRes.missing)
        [(strLit "zfs", strLit "v1")] [strLit "/mods/zfs.ko"] = .error m) ∧
    debug_loop envWithMissingFile [strLit "/bin/x"] = .ok [] :=
  ⟨(c8_tool_missing.1 ⟨envWithMissingFile, (.archived, false)⟩ rfl).1,
   c8_tool_missing.2.1 [(strLit "zfs", strLit "v1")] [strLit "/mods/zfs.ko"]
     ⟨strLit "/mods/zfs.ko", by decide, strLit "v1", by decide, by decide⟩,
   c8_tool_missing.2.2.1 envWithMissingFile [strLit "/bin/x"]
     (fun d hd => rfl) (fun d hd => rfl)⟩

/-! ## C4: kernel-module fingerprint matching -/

lemma adelete_cons (n k v : Str) (rest : List (Str × Str)) :
    adelete n ((k, v) :: rest) =
      if k = n then adelete n rest else (k, v) :: adelete n rest := by
  by_cases hk : k = n <;> simp [adelete, List.filter_cons, hk]

lemma alookup_adelete_self (n : Str) (d : List (Str × Str)) :
    alookup n (adelete n d) = none := by
  induction d with
  | nil => rfl
  | cons e rest ih =>
    obtain ⟨k, v⟩ := e
    rw [adelete_cons]
    by_cases hk : k = n
    · rw [if_pos hk]
      exact ih
    · rw [if_neg hk]
      simp [alookup, hk, ih]

lemma alookup_adelete_ne {m n : Str} (h : m ≠ n) (d : List (Str × Str)) :
    alookup m (adelete n d) = alookup m d := by
  induction d with
  | nil => rfl
  | cons e rest ih =>
    obtain ⟨k, v⟩ := e
    rw [adelete_cons]
    by_cases hk : k = n
    · rw [if_pos hk]
      have hkm : ¬ (k = m) := fun hh => h (hh ▸ hk)
      simp [alookup, hkm, ih]
    · rw [if_neg hk]
      by_cases hkm : k = m
      · simp [alookup, hkm]
      · simp [alookup, hkm, ih]

lemma mem_adelete {n : Str} {e : Str × Str} {d : List (Str × Str)}
    (h : e ∈ adelete n d) : e ∈ d ∧ e.1 ≠ n := by
  have := List.mem_filter.mp h
  refine ⟨this.1, ?_⟩
  simpa using this.2

lemma mem_adelete_of_mem {n : Str} {e : Str × Str} {d : List (Str × Str)}
    (he : e ∈ d) (hne : e.1 ≠ n) : e ∈ adelete n d :=
  List.mem_filter.mpr ⟨he, by simpa using hne⟩

lemma keys_nodup_adelete {d : List (Str × Str)}
    (h : (d.map Prod.fst).Nodup) (n : Str) :
    ((adelete n d).map Prod.fst).Nodup :=
  h.sublist (List.Sublist.map Prod.fst (List.filter_sublist d))

/-- The pending map is throughout a sub-map of the original record map:
deletion only ever removes entries. -/
def SubDict (d mods : List (Str × Str)) : Prop :=
  ∀ n v, alookup n d = some v → alookup n mods = some v

lemma SubDict.refl (d : List (Str × Str)) : SubDict d d := fun _ _ h => h

lemma SubDict.delete {d mods : List (Str × Str)} (h : SubDict d mods)
    (n : Str) : SubDict (adelete n d) mods := by
  intro m v hm
  by_cases hmn : m = n
  · subst hmn
    rw [alookup_adelete_self] at hm
    cases hm
  · rw [alookup_adelete_ne hmn] at hm
    exact h m v hm

lemma go_prefix (minfo : Str → ToolRes) (cs : List Str) :
    ∀ (d : List (Str × Str)) (acc paths : List Str)
      (unres : List (Str × Str)),
      get_module_paths_go minfo d acc cs = .ok (paths, unres) →
      ∃ app, paths = acc ++ app := by
  induction cs with
  | nil =>
    intro d acc paths unres h
    simp only [get_module_paths_go] at h
    cases h
    exact ⟨[], (List.append_nil acc).symm⟩
  | cons mp rest ih =>
    intro d acc paths unres h
    simp only [get_module_paths_go] at h
    split at h
    · exact ih d acc paths unres h
    · split at h
      · exact ih d acc paths unres h
      · split at h
        · cases h
        · cases h
        · split at h
          · obtain ⟨app, happ⟩ := ih _ _ _ _ h
            refine ⟨mp :: app, ?_⟩
            rw [happ, List.append_assoc]
            rfl
          · exact ih d acc paths unres h

lemma go_sound (minfo : Str → ToolRes) (mods : List (Str × Str))
    (cs : List Str) :
    ∀ (d : List (Str × Str)) (acc paths : List Str)
      (unres : List (Str × Str)),
      SubDict d mods →
      get_module_paths_go minfo d acc cs = .ok (paths, unres) →
      ∀ p ∈ paths, p ∈ acc ∨ matchCond minfo mods p := by
  induction cs with
  | nil =>
    intro d acc paths unres hsub h p hp
    simp only [get_module_paths_go] at h
    cases h
    exact Or.inl hp
  | cons mp rest ih =>
    intro d acc paths unres hsub h p hp
    simp only [get_module_paths_go] at h
    split at h
    · exact ih d acc paths unres hsub h p hp
    next v hl =>
      split at h
      · exact ih d acc paths unres hsub h p hp
      next hve =>
        split at h
        · cases h
        · cases h
        next out hmi =>
          split at h
          next hs =>
            rcases ih _ _ _ _ (hsub.delete (modnameOf mp)) h p hp with
              hin | hmc
            · rcases List.mem_append.mp hin with hin2 | hin3
              · exact Or.inl hin2
              · have hpmp : p = mp := by simpa using hin3
                subst hpmp
                refine Or.inr ⟨v, out, hsub _ _ hl, ?_, hmi, hs⟩
                intro hv
                rw [hv] at hve
                simp at hve
            · exact Or.inr hmc
          next hs => exact ih d acc paths unres hsub h p hp

lemma go_names_nodup (minfo : Str → ToolRes) (cs : List Str) :
    ∀ (d : List (Str × Str)) (acc paths : List Str)
      (unres : List (Str × Str)),
      (acc.map modnameOf).Nodup →
      (∀ a ∈ acc, alookup (modnameOf a) d = none) →
      get_module_paths_go minfo d acc cs = .ok (paths, unres) →
      (paths.map modnameOf).Nodup := by
  induction cs with
  | nil =>
    intro d acc paths unres hnd hacc h
    simp only [get_module_paths_go] at h
    cases h
    exact hnd
  | cons mp rest ih =>
    intro d acc paths unres hnd hacc h
    simp only [get_module_paths_go] at h
    split at h
    · exact ih d acc paths unres hnd hacc h
    next v hl =>
      split at h
      · exact ih d acc paths unres hnd hacc h
      next hve =>
        split at h
        · cases h
        · cases h
        next out hmi =>
          split at h
          next hs =>
            apply ih _ _ _ _ ?_ ?_ h
            · rw [List.map_append]
              refine List.Nodup.append hnd (List.nodup_singleton _) ?_
              intro x hx hy
              simp only [List.map_cons, List.map_nil,
                List.mem_singleton] at hy
              obtain ⟨a, ha, hax⟩ := List.mem_map.mp hx
              have hnone := hacc a ha
              rw [hax, hy, hl] at hnone
              cases hnone
            · intro a ha
              rcases List.mem_append.mp ha with ha1 | ha2
              · by_cases hmn : modnameOf a = modnameOf mp
                · rw [hmn]
                  exact alookup_adelete_self _ _
                · rw [alookup_adelete_ne hmn]
                  exact hacc a ha1
              · have hamp : a = mp := by simpa using ha2
                rw [hamp]
                exact alookup_adelete_self _ _
          next hs => exact ih d acc paths unres hnd hacc h

lemma go_unres (minfo : Str → ToolRes) (cs : List Str) :
    ∀ (d : List (Str × Str)) (acc paths : List Str)
      (unres : List (Str × Str)),
      (d.map Prod.fst).Nodup →
      (∀ a ∈ acc, alookup (modnameOf a) d = none) →
      get_module_paths_go minfo d acc cs = .ok (paths, unres) →
      (∀ e ∈ unres, e ∈ d) ∧
      (∀ e ∈ d, e ∈ unres ∨ ∃ p, p ∈ paths ∧ p ∉ acc ∧ modnameOf p = e.1) ∧
      (∀ e ∈ unres, ∀ p, p ∈ paths → p ∉ acc → modnameOf p ≠ e.1) := by
  induction cs with
  | nil =>
    intro d acc paths unres hkeys hacc h
    simp only [get_module_paths_go] at h
    cases h
    refine ⟨fun e he => he, fun e he => Or.inl he, ?_⟩
    intro e he p hp hnp
    exact absurd hp hnp
  | cons mp rest ih =>
    intro d acc paths unres hkeys hacc h
    simp only [get_module_paths_go] at h
    split at h
    · exact ih d acc paths unres hkeys hacc h
    next v hl =>
      split at h
      · exact ih d acc paths unres hkeys hacc h
      next hve =>
        split at h
        · cases h
        · cases h
        next out hmi =>
          split at h
          next hs =>
            have haccd : ∀ a ∈ acc ++ [mp],
                alookup (modnameOf a) (adelete (modnameOf mp) d) = none := by
              intro a ha
              rcases List.mem_append.mp ha with ha1 | ha2
              · by_cases hmn : modnameOf a = modnameOf mp
                · rw [hmn]
                  exact alookup_adelete_self _ _
                · rw [alookup_adelete_ne hmn]
                  exact hacc a ha1
              · have hamp : a = mp := by simpa using ha2
                rw [hamp]
                exact alookup_adelete_self _ _
            have hkeys2 : ((adelete (modnameOf mp) d).map Prod.fst).Nodup :=
              keys_nodup_adelete hkeys _
            obtain ⟨h1, h2, h3⟩ := ih _ _ _ _ hkeys2 haccd h
            have hmp_mem : mp ∈ paths := by
              obtain ⟨app, happ⟩ := go_prefix minfo rest _ _ _ _ h
              rw [happ]
              exact List.mem_append.mpr
                (Or.inl (List.mem_append.mpr (Or.inr (by simp))))
            have hmp_nacc : mp ∉ acc := by
              intro hin
              have hnone := hacc mp hin
              rw [hl] at hnone
              cases hnone
            refine ⟨?_, ?_, ?_⟩
            · intro e he
              exact (mem_adelete (h1 e he)).1
            · intro e he
              by_cases hen : e.1 = modnameOf mp
              · exact Or.inr ⟨mp, hmp_mem, hmp_nacc, hen.symm⟩
              · have he2 : e ∈ adelete (modnameOf mp) d :=
                  mem_adelete_of_mem he hen
                rcases h2 e he2 with hu | ⟨p, hp, hpn, hpe⟩
                · exact Or.inl hu
                · exact Or.inr ⟨p, hp,
                    fun hinacc => hpn (List.mem_append.mpr (Or.inl hinacc)),
                    hpe⟩
            · intro e he p hp hnp
              by_cases hpmp : p = mp
              · subst hpmp
                exact fun hcon => (mem_adelete (h1 e he)).2 hcon.symm
              · apply h3 e he p hp
                intro hin
                rcases List.mem_append.mp hin with h5 | h6
                · exact hnp h5
                · exact hpmp (by simpa using h6)
          next hs => exact ih d acc paths unres hkeys hacc h

lemma go_first (minfo : Str → ToolRes) (cs : List Str) :
    ∀ (d : List (Str × Str)) (acc paths : List Str)
      (unres : List (Str × Str)),
      get_module_paths_go minfo d acc cs = .ok (paths, unres) →
      ∀ xs c ys, cs = xs ++ c :: ys →
        matchCond minfo d c →
        (∀ e ∈ xs, modnameOf e = modnameOf c → ¬ matchCond minfo d e) →
        c ∈ paths := by
  induction cs with
  | nil =>
    intro d acc paths unres h xs c ys hcs hmc hfirst
    rcases xs with _ | ⟨x, xs'⟩ <;> simp at hcs
  | cons mp rest ih =>
    intro d acc paths unres h xs c ys hcs hmc hfirst
    cases xs with
    | nil =>
      simp only [List.nil_append] at hcs
      injection hcs with h1 h2
      subst h1
      subst h2
      obtain ⟨v, out, hl, hvne, hmi, hs⟩ := hmc
      simp only [get_module_paths_go] at h
      split at h
      next hl2 => rw [hl] at hl2; cases hl2
      next v2 hl2 =>
        rw [hl] at hl2
        cases hl2
        split at h
        next hve =>
          rw [List.isEmpty_iff] at hve
          exact absurd hve hvne
        next hve =>
          split at h
          next hmi2 => rw [hmi] at hmi2; cases hmi2
          next m hmi2 => rw [hmi] at hmi2; cases hmi2
          next out2 hmi2 =>
            rw [hmi] at hmi2
            cases hmi2
            split at h
            next hs2 =>
              obtain ⟨app, happ⟩ := go_prefix minfo rest _ _ _ _ h
              rw [happ]
              exact List.mem_append.mpr
                (Or.inl (List.mem_append.mpr (Or.inr (by simp))))
            next hs2 => exact absurd hs hs2
    | cons x xs' =>
      simp only [List.cons_append] at hcs
      injection hcs with h1 h2
      subst h1
      subst h2
      simp only [get_module_paths_go] at h
      split at h
      · exact ih _ _ _ _ h xs' c ys rfl hmc
          (fun e he hne => hfirst e (List.mem_cons_of_mem _ he) hne)
      next v hl =>
        split at h
        · exact ih _ _ _ _ h xs' c ys rfl hmc
            (fun e he hne => hfirst e (List.mem_cons_of_mem _ he) hne)
        next hve =>
          split at h
          · cases h
          · cases h
          next out hmi =>
            split at h
            next hs =>
              have hmcmp : matchCond minfo d mp :=
                ⟨v, out, hl, fun hv => hve (by rw [hv]; rfl), hmi, hs⟩
              have hne : modnameOf mp ≠ modnameOf c := by
                intro heq
                exact hfirst mp (List.mem_cons_self _ _) heq hmcmp
              obtain ⟨cv, cout, hcl, hcvne, hcmi, hcs2⟩ := hmc
              have hmc2 : matchCond minfo (adelete (modnameOf mp) d) c :=
                ⟨cv, cout,
                  by rw [alookup_adelete_ne (Ne.symm hne)]; exact hcl,
                  hcvne, hcmi, hcs2⟩
              have hfirst2 : ∀ e ∈ xs', modnameOf e = modnameOf c →
                  ¬ matchCond minfo (adelete (modnameOf mp) d) e := by
                intro e he hemc hcond
                obtain ⟨ev, eout, hel, hevne, hemi, hes⟩ := hcond
                rw [alookup_adelete_ne
                  (by rw [hemc]; exact Ne.symm hne)] at hel
                exact hfirst e (List.mem_cons_of_mem _ he) hemc
                  ⟨ev, eout, hel, hevne, hemi, hes⟩
              exact ih _ _ _ _ h xs' c ys rfl hmc2 hfirst2
            next hs =>
              exact ih _ _ _ _ h xs' c ys rfl hmc
                (fun e he hne => hfirst e (List.mem_cons_of_mem _ he) hne)

/-- C4: over a record map with distinct module names (as a Python dict
guarantees), a loop run that returns normally has: every recorded path
fingerprint-matched its record byte for byte (after the `strip` the source
applies); every module name is resolved at most once, the first
fingerprint-matching candidate winning and never being overwritten; and the
entries returned as unresolved are exactly the records whose name no recorded
path carries, reported without aborting the run (the function returns `.ok`,
not an error, and the source merely prints the unresolved names). -/
theorem c4_module_matching (minfo : Str → ToolRes)
    (mod_name_srcvers : List (Str × Str)) (candidates paths : List Str)
    (unres : List (Str × Str))
    (hkeys : (mod_name_srcvers.map Prod.fst).Nodup)
    (hrun : get_module_paths minfo mod_name_srcvers candidates =
      .ok (paths, unres)) :
    (∀ p ∈ paths, matchCond minfo mod_name_srcvers p) ∧
    (paths.map modnameOf).Nodup ∧
    (∀ xs c ys, candidates = xs ++ c :: ys →
      matchCond minfo mod_name_srcvers c →
      (∀ e ∈ xs, modnameOf e = modnameOf c →
        ¬ matchCond minfo mod_name_srcvers e) →
      c ∈ paths) ∧
    (∀ e ∈ unres, e ∈ mod_name_srcvers ∧ ∀ p ∈ paths, modnameOf p ≠ e.1) ∧
    (∀ e ∈ mod_name_srcvers, e ∈ unres ∨ ∃ p ∈ paths, modnameOf p = e.1) := by
  have hsound := go_sound minfo mod_name_srcvers candidates mod_name_srcvers
    [] paths unres (SubDict.refl _) hrun
  have hnodup := go_names_nodup minfo candidates mod_name_srcvers [] paths
    unres (by simp) (by simp) hrun
  have hunres := go_unres minfo candidates mod_name_srcvers [] paths unres
    hkeys (by simp) hrun
  have hfirst := go_first minfo candidates mod_name_srcvers [] paths unres
    hrun
  refine ⟨?_, hnodup, ?_, ?_, ?_⟩
  · intro p hp
    rcases hsound p hp with hin | hmc
    · cases hin
    · exact hmc
  · intro xs c ys hcs hmc hf
    exact hfirst xs c ys hcs hmc hf
  · intro e he
    refine ⟨hunres.1 e he, ?_⟩
    intro p hp
    exact hunres.2.2 e he p hp (by simp)
  · intro e he
    rcases hunres.2.1 e he with hu | ⟨p, hp, _, hpe⟩
    · exact Or.inl hu
    · exact Or.inr ⟨p, hp, hpe⟩

/-- C4 witness: a concrete run with two records and two candidates where the
first candidate fingerprint-matches and the second does not — the matched
names are duplicate-free. -/
theorem c4_module_matching_witness :
    ([strLit "/mods/x/zfs.ko"].map modnameOf).Nodup :=
  (c4_module_matching
    (fun p => if p = strLit "/mods/x/zfs.ko" then ToolRes.ok (strLit " v1 ")
      else ToolRes.ok (strLit "zzz"))
    [(strLit "zfs", strLit "v1"), (strLit "nvpair", strLit "v2")]
    [strLit "/mods/x/zfs.ko", strLit "/mods/nvpair.ko"]
    [strLit "/mods/x/zfs.ko"] [(strLit "nvpair", strLit "v2")]
    (by decide) rfl).2.1
